import Mathlib

/-!
Verification of the event-to-voxel-grid, crop/pad-alignment and color-channel
compositing utilities of `utils/inference_utils.py`.

Modelling conventions (shallow embedding):
* `float64` timestamps, coordinates, polarities and grid cells are modelled by
  exact rationals (`ℚ`); Python integers by `ℕ`/`ℤ`.
* NumPy's `astype(np.int)` / Torch's `.long()` on floats truncate toward zero;
  this is `ratTrunc` below.  Torch's `torch.floor` is `Int.floor`.
* The flattened voxel grid `np.zeros((num_bins, height, width)).ravel()` is a
  `List ℚ` of length `num_bins * height * width`; `np.add.at` on a flat index
  accepts indices in `[-size, size)` (negative indices wrap around) and raises
  `IndexError` otherwise, while Torch's `index_add_` accepts only `[0, size)`.
  Fallible indexing is modelled with `Except String`.
* The in-place rewrites of the caller's arrays (`events[:, 0] = ...`,
  `pols[pols == 0] = -1` through a view, and `channels[ch] = cv2.resize(...)`)
  are modelled by returning the mutated array alongside the main result.
* `cv2.resize(..., fx=2, fy=2, interpolation=cv2.INTER_CUBIC)` and
  `cv2.cvtColor`-based `upsample_color_image` are external library calls; they
  are passed in as opaque function parameters.
-/

/-- One event row `[timestamp, x, y, polarity]` of the `[N x 4]` float array. -/
structure Event where
  t : ℚ
  x : ℚ
  y : ℚ
  p : ℚ
  deriving DecidableEq

/-- Truncation toward zero: NumPy `astype(np.int)` / Torch `.long()` on floats. -/
def ratTrunc (q : ℚ) : ℤ := if 0 ≤ q then ⌊q⌋ else ⌈q⌉

/-- `pols[pols == 0] = -1`: polarity 0 becomes -1, all other values pass through. -/
def normPolarity (p : ℚ) : ℚ := if p = 0 then -1 else p

/-- `first_stamp = events[0, 0]` (0 as a junk value on the empty batch, which the
builders reject before reading it). -/
def first_stamp (events : List Event) : ℚ :=
  match events with
  | [] => 0
  | e :: _ => e.t

/-- `last_stamp = events[-1, 0]`. -/
def last_stamp (events : List Event) : ℚ :=
  (events.getLast?).elim 0 Event.t

/-- `deltaT = last_stamp - first_stamp; if deltaT == 0: deltaT = 1.0`. -/
def deltaT (events : List Event) : ℚ :=
  if last_stamp events - first_stamp events = 0 then 1
  else last_stamp events - first_stamp events

/-- Normalized bin position `(num_bins - 1) * (t - first_stamp) / deltaT`. -/
def binPos (num_bins : ℕ) (events : List Event) (t : ℚ) : ℚ :=
  ((num_bins : ℚ) - 1) * (t - first_stamp events) / deltaT events

/-- The in-place normalization performed by `events_to_voxel_grid`: the
timestamp column is overwritten with the normalized bin position and the
polarity column (accessed through the view `pols`) has zeros replaced by -1. -/
def npNormalize (num_bins : ℕ) (events : List Event) : List Event :=
  events.map fun e => { e with t := binPos num_bins events e.t, p := normPolarity e.p }

/-- The in-place normalization performed by `events_to_voxel_grid_pytorch`:
only the timestamp column is overwritten (`pols` there is a fresh `.float()`
copy, so the polarity column of the caller's array is untouched). -/
def ptNormalize (num_bins : ℕ) (events : List Event) : List Event :=
  events.map fun e => { e with t := binPos num_bins events e.t }

/-- One accumulation into the flat grid.  With `wrap = true` this is NumPy
`np.add.at` on a flat index (negative indices in `[-size, 0)` wrap around);
with `wrap = false` it is Torch `index_add_` (only `[0, size)` accepted). -/
def addAt (wrap : Bool) (g : List ℚ) (i : ℤ) (v : ℚ) : Except String (List ℚ) :=
  if 0 ≤ i ∧ i < (g.length : ℤ) then
    .ok (g.set i.toNat (g.getD i.toNat 0 + v))
  else if wrap = true ∧ 0 ≤ i + (g.length : ℤ) ∧ i < 0 then
    .ok (g.set (i + (g.length : ℤ)).toNat (g.getD (i + (g.length : ℤ)).toNat 0 + v))
  else .error "IndexError"

/-- A vote is (guard from `valid_indices`, flat index, accumulated value). -/
def applyVotes (wrap : Bool) (g : List ℚ) (votes : List (Bool × ℤ × ℚ)) :
    Except String (List ℚ) :=
  match votes with
  | [] => .ok g
  | v :: rest =>
    match (if v.1 then addAt wrap g v.2.1 v.2.2 else .ok g) with
    | .error s => .error s
    | .ok g' => applyVotes wrap g' rest

/-- Left-side vote of one (already normalized) event in `events_to_voxel_grid`:
guard `tis < num_bins`, index `xs + ys * width + tis * width * height`, value
`pols * (1.0 - dts)`.  There is no `tis >= 0` guard in the NumPy version. -/
def leftVoteNp (num_bins width height : ℕ) (e : Event) : Bool × ℤ × ℚ :=
  (decide (ratTrunc e.t < (num_bins : ℤ)),
   ratTrunc e.x + ratTrunc e.y * (width : ℤ) + ratTrunc e.t * ((width : ℤ) * (height : ℤ)),
   e.p * (1 - (e.t - (ratTrunc e.t : ℚ))))

/-- Right-side vote in `events_to_voxel_grid`: guard `(tis + 1) < num_bins`,
index `xs + ys * width + (tis + 1) * width * height`, value `pols * dts`. -/
def rightVoteNp (num_bins width height : ℕ) (e : Event) : Bool × ℤ × ℚ :=
  (decide (ratTrunc e.t + 1 < (num_bins : ℤ)),
   ratTrunc e.x + ratTrunc e.y * (width : ℤ)
     + (ratTrunc e.t + 1) * ((width : ℤ) * (height : ℤ)),
   e.p * (e.t - (ratTrunc e.t : ℚ)))

/-- Left-side vote in `events_to_voxel_grid_pytorch`: `tis = torch.floor(ts)`,
guard `tis < num_bins` and `tis >= 0`, value `pols * (1.0 - dts)` where the
polarity is normalized on a fresh copy (`e.p` is still the raw polarity). -/
def leftVotePt (num_bins width height : ℕ) (e : Event) : Bool × ℤ × ℚ :=
  (decide (⌊e.t⌋ < (num_bins : ℤ)) && decide (0 ≤ ⌊e.t⌋),
   ratTrunc e.x + ratTrunc e.y * (width : ℤ) + ⌊e.t⌋ * ((width : ℤ) * (height : ℤ)),
   normPolarity e.p * (1 - (e.t - (⌊e.t⌋ : ℚ))))

/-- Right-side vote in `events_to_voxel_grid_pytorch`: guard `(tis + 1) < num_bins`
and `tis >= 0`. -/
def rightVotePt (num_bins width height : ℕ) (e : Event) : Bool × ℤ × ℚ :=
  (decide (⌊e.t⌋ + 1 < (num_bins : ℤ)) && decide (0 ≤ ⌊e.t⌋),
   ratTrunc e.x + ratTrunc e.y * (width : ℤ)
     + (⌊e.t⌋ + 1) * ((width : ℤ) * (height : ℤ)),
   normPolarity e.p * (e.t - (⌊e.t⌋ : ℚ)))

/-- `events_to_voxel_grid(events, num_bins, width, height)` (NumPy version).
Returns the flattened `(num_bins, height, width)` grid together with the
mutated caller event array (timestamp and polarity columns rewritten in
place by the original code). -/
def events_to_voxel_grid (events : List Event) (num_bins width height : ℕ) :
    Except String (List ℚ × List Event) :=
  if events = [] ∨ num_bins = 0 ∨ width = 0 ∨ height = 0 then .error "AssertionError"
  else
    let evs := npNormalize num_bins events
    let g0 := List.replicate (num_bins * height * width) (0 : ℚ)
    match applyVotes true g0 (evs.map (leftVoteNp num_bins width height)) with
    | .error s => .error s
    | .ok g1 =>
      match applyVotes true g1 (evs.map (rightVoteNp num_bins width height)) with
      | .error s => .error s
      | .ok g2 => .ok (g2, evs)

/-- `events_to_voxel_grid_pytorch(events, num_bins, width, height, device)`.
Returns the flattened grid together with the mutated caller event array (only
the timestamp column is rewritten in place there; `events_torch` shares
memory with the caller's NumPy array). -/
def events_to_voxel_grid_pytorch (events : List Event) (num_bins width height : ℕ) :
    Except String (List ℚ × List Event) :=
  if events = [] ∨ num_bins = 0 ∨ width = 0 ∨ height = 0 then .error "AssertionError"
  else
    let evs := ptNormalize num_bins events
    let g0 := List.replicate (num_bins * height * width) (0 : ℚ)
    match applyVotes false g0 (evs.map (leftVotePt num_bins width height)) with
    | .error s => .error s
    | .ok g1 =>
      match applyVotes false g1 (evs.map (rightVotePt num_bins width height)) with
      | .error s => .error s
      | .ok g2 => .ok (g2, evs)

/-- `optimal_crop_size(max_size, max_subsample_factor, safety_margin)`:
`2^f * ceil(max_size / 2^f) + safety_margin * 2^f`, with the real-valued
`ceil(max_size / pow(2, f))` computed exactly as a natural ceiling division. -/
def optimal_crop_size (max_size max_subsample_factor safety_margin : ℕ) : ℕ :=
  2 ^ max_subsample_factor
      * ((max_size + 2 ^ max_subsample_factor - 1) / 2 ^ max_subsample_factor)
    + safety_margin * 2 ^ max_subsample_factor

/-- The fields computed by `CropParameters.__init__`.  `ceil(0.5 * d)` on a
nonnegative integer `d` is `(d + 1) / 2` and `floor(0.5 * d)` is `d / 2`;
`floor(w / 2)` is `w / 2` and `ceil(w / 2)` is `(w + 1) / 2`. -/
structure CropParameters where
  width : ℕ
  height : ℕ
  num_encoders : ℕ
  width_crop_size : ℕ
  height_crop_size : ℕ
  padding_top : ℕ
  padding_bottom : ℕ
  padding_left : ℕ
  padding_right : ℕ
  cx : ℕ
  cy : ℕ
  ix0 : ℕ
  ix1 : ℕ
  iy0 : ℕ
  iy1 : ℕ
  deriving DecidableEq

/-- `CropParameters(width, height, num_encoders, safety_margin)`. -/
def mkCropParameters (width height num_encoders safety_margin : ℕ) : CropParameters :=
  let wcs := optimal_crop_size width num_encoders safety_margin
  let hcs := optimal_crop_size height num_encoders safety_margin
  { width := width
    height := height
    num_encoders := num_encoders
    width_crop_size := wcs
    height_crop_size := hcs
    padding_top := (hcs - height + 1) / 2
    padding_bottom := (hcs - height) / 2
    padding_left := (wcs - width + 1) / 2
    padding_right := (wcs - width) / 2
    cx := wcs / 2
    cy := hcs / 2
    ix0 := wcs / 2 - width / 2
    ix1 := wcs / 2 + (width + 1) / 2
    iy0 := hcs / 2 - height / 2
    iy1 := hcs / 2 + (height + 1) / 2 }

/-- The out-of-scope padding operator (`ZeroPad2d` generalized to an arbitrary
border fill, as the round-trip property allows): the true-resolution image is
placed at offset `(padding_top, padding_left)` inside the working canvas and
every border pixel reads from `fill`. -/
def padApply (p : CropParameters) (img fill : ℕ → ℕ → ℚ) : ℕ → ℕ → ℚ :=
  fun y x =>
    if p.padding_top ≤ y ∧ y < p.padding_top + p.height
        ∧ p.padding_left ≤ x ∧ x < p.padding_left + p.width then
      img (y - p.padding_top) (x - p.padding_left)
    else fill y x

/-- The out-of-scope cropping operator `canvas[iy0:iy1, ix0:ix1]`: pixel `(y, x)`
of the crop is pixel `(iy0 + y, ix0 + x)` of the working canvas. -/
def cropApply (p : CropParameters) (canvas : ℕ → ℕ → ℚ) : ℕ → ℕ → ℚ :=
  fun y x => canvas (p.iy0 + y) (p.ix0 + x)

/-- `shift_image(X, dx, dy)`: `np.roll` along both axes followed by zeroing the
rows/columns that rolled in from the opposite edge.  `Hr × Wc` is the array
shape; pixels are addressed as `X y x`. -/
def shift_image (Hr Wc : ℕ) (X : ℕ → ℕ → ℚ) (dx dy : ℤ) : ℕ → ℕ → ℚ :=
  fun y x =>
    if (0 < dy ∧ (y : ℤ) < dy) ∨ (dy < 0 ∧ (Hr : ℤ) + dy ≤ (y : ℤ)) then 0
    else if (0 < dx ∧ (x : ℤ) < dx) ∨ (dx < 0 ∧ (Wc : ℤ) + dx ≤ (x : ℤ)) then 0
    else X (((y : ℤ) - dy).emod (Hr : ℤ)).toNat (((x : ℤ) - dx).emod (Wc : ℤ)).toNat

/-- The five channels handed to `merge_channels_into_color_image`: four color
reconstructions (quarter resolution) and the full-resolution grayscale one. -/
structure ChannelSet where
  R : ℕ → ℕ → ℚ
  G : ℕ → ℕ → ℚ
  W : ℕ → ℕ → ℚ
  B : ℕ → ℕ → ℚ
  grayscale : ℕ → ℕ → ℚ

/-- `(255.0 * v).astype(np.uint8)`: scale, truncate toward zero, wrap into the
8-bit range (the wrap only matters for values outside `[0, 255]`). -/
def toUint8 (v : ℚ) : ℤ := (ratTrunc (255 * v)).emod 256

/-- The state of the caller's channel dictionary after
`merge_channels_into_color_image` ran: R, G, W, B have been replaced in place
by their upsampled (and, for B, G, W, shifted) full-resolution versions.
`resize2x` stands for the external `cv2.resize(..., fx=2, fy=2, INTER_CUBIC)`;
`Hr × Wc` is the full (grayscale) resolution. -/
def shiftedChannels (Hr Wc : ℕ) (resize2x : (ℕ → ℕ → ℚ) → ℕ → ℕ → ℚ)
    (channels : ChannelSet) : ChannelSet :=
  { R := resize2x channels.R
    G := shift_image Hr Wc (resize2x channels.G) 1 0
    W := shift_image Hr Wc (resize2x channels.W) 0 1
    B := shift_image Hr Wc (resize2x channels.B) 1 1
    grayscale := channels.grayscale }

/-- `reconstruction_bgr = (255.0 * np.dstack([B, 0.5 * (G + W), R])).astype(np.uint8)`
computed on the shifted, upsampled channels; a pixel is the `(B, G, R)` triple. -/
def reconstruction_bgr (Hr Wc : ℕ) (resize2x : (ℕ → ℕ → ℚ) → ℕ → ℕ → ℚ)
    (channels : ChannelSet) : ℕ → ℕ → ℤ × ℤ × ℤ :=
  fun y x =>
    (toUint8 ((shiftedChannels Hr Wc resize2x channels).B y x),
     toUint8 ((1 : ℚ)/2 * ((shiftedChannels Hr Wc resize2x channels).G y x
       + (shiftedChannels Hr Wc resize2x channels).W y x)),
     toUint8 ((shiftedChannels Hr Wc resize2x channels).R y x))

/-- `reconstruction_grayscale = (255.0 * channels['grayscale']).astype(np.uint8)`. -/
def reconstruction_grayscale (channels : ChannelSet) : ℕ → ℕ → ℤ :=
  fun y x => toUint8 (channels.grayscale y x)

/-- `merge_channels_into_color_image(channels)`.  The final luminance/chroma
fusion `upsample_color_image` is an external `cv2.cvtColor`-based collaborator
and is passed in as an opaque function.  Returns the fused image together with
the mutated caller channel dictionary. -/
def merge_channels_into_color_image (Hr Wc : ℕ)
    (resize2x : (ℕ → ℕ → ℚ) → ℕ → ℕ → ℚ)
    (upsample_color_image : (ℕ → ℕ → ℤ) → (ℕ → ℕ → ℤ × ℤ × ℤ) → ℕ → ℕ → ℤ × ℤ × ℤ)
    (channels : ChannelSet) : (ℕ → ℕ → ℤ × ℤ × ℤ) × ChannelSet :=
  (upsample_color_image (reconstruction_grayscale channels)
      (reconstruction_bgr Hr Wc resize2x channels),
   shiftedChannels Hr Wc resize2x channels)

/-- Contribution of one event (given its two votes) to flat cell `i`. -/
def contribAt (lv rv : Bool × ℤ × ℚ) (i : ℕ) : ℚ :=
  (if lv.1 = true ∧ lv.2.1 = (i : ℤ) then lv.2.2 else 0)
  + (if rv.1 = true ∧ rv.2.1 = (i : ℤ) then rv.2.2 else 0)

/-- Total mass contributed by one event (given its two votes) to the grid. -/
def contribTotal (lv rv : Bool × ℤ × ℚ) : ℚ :=
  (if lv.1 = true then lv.2.2 else 0) + (if rv.1 = true then rv.2.2 else 0)

lemma addAt_ok (wrap : Bool) (g : List ℚ) (i : ℤ) (v : ℚ)
    (h0 : 0 ≤ i) (h1 : i < (g.length : ℤ)) :
    addAt wrap g i v = .ok (g.set i.toNat (g.getD i.toNat 0 + v)) := by
  unfold addAt
  rw [if_pos ⟨h0, h1⟩]

lemma getD_set_add (g : List ℚ) (n : ℕ) (hn : n < g.length) (v : ℚ) (i : ℕ)
    (hi : i < g.length) :
    (g.set n (g.getD n 0 + v)).getD i 0 = g.getD i 0 + (if n = i then v else 0) := by
  rw [List.getD_eq_getElem _ _ (by simpa using hi), List.getD_eq_getElem _ _ hi,
    List.getElem_set]
  by_cases hni : n = i
  · subst hni
    rw [if_pos rfl, if_pos rfl, List.getD_eq_getElem _ _ hn]
  · rw [if_neg hni, if_neg hni, add_zero]

lemma sum_set_add (g : List ℚ) (n : ℕ) (hn : n < g.length) (v : ℚ) :
    (g.set n (g.getD n 0 + v)).sum = g.sum + v := by
  rw [List.sum_set', dif_pos hn, List.getD_eq_getElem _ _ hn]
  ring

lemma getD_replicate_zero (n i : ℕ) : (List.replicate n (0 : ℚ)).getD i 0 = 0 := by
  by_cases hi : i < n
  · rw [List.getD_eq_getElem _ _ (by simpa using hi), List.getElem_replicate]
  · rw [List.getD_eq_default _ _ (by simpa using Nat.le_of_not_lt hi)]

/-- Running a vote list whose enabled indices are all in range succeeds, and
the result is the input grid plus, cellwise, the matching enabled votes. -/
lemma applyVotes_ok (wrap : Bool) (votes : List (Bool × ℤ × ℚ)) :
    ∀ g : List ℚ,
      (∀ v ∈ votes, v.1 = true → 0 ≤ v.2.1 ∧ v.2.1 < (g.length : ℤ)) →
      ∃ g', applyVotes wrap g votes = .ok g' ∧ g'.length = g.length ∧
        (∀ i : ℕ, i < g.length → g'.getD i 0 = g.getD i 0 +
            (votes.map fun v => if v.1 = true ∧ v.2.1 = (i : ℤ) then v.2.2 else 0).sum) ∧
        g'.sum = g.sum + (votes.map fun v => if v.1 = true then v.2.2 else 0).sum := by
  induction votes with
  | nil =>
    intro g _
    exact ⟨g, rfl, rfl, fun i _ => by simp, by simp⟩
  | cons v rest ih =>
    intro g hidx
    by_cases hv : v.1 = true
    · obtain ⟨h0, h1⟩ := hidx v (List.mem_cons_self _ _) hv
      have hlt : v.2.1.toNat < g.length := by omega
      obtain ⟨g', hrun, hlen, hpt, hsum⟩ :=
        ih (g.set v.2.1.toNat (g.getD v.2.1.toNat 0 + v.2.2))
          (by
            intro w hw hwt
            have := (hidx w (List.mem_cons_of_mem _ hw) hwt)
            simpa using this)
      have hstep : applyVotes wrap g (v :: rest)
          = applyVotes wrap (g.set v.2.1.toNat (g.getD v.2.1.toNat 0 + v.2.2)) rest := by
        simp only [applyVotes, hv, if_true, addAt_ok wrap g v.2.1 v.2.2 h0 h1]
      refine ⟨g', by rw [hstep, hrun], by simpa using hlen, ?_, ?_⟩
      · intro i hi
        rw [hpt i (by simpa using hi), getD_set_add g _ hlt _ _ hi,
          List.map_cons, List.sum_cons]
        have hcond : (if v.1 = true ∧ v.2.1 = (i : ℤ) then v.2.2 else 0)
            = (if v.2.1.toNat = i then v.2.2 else 0) := by
          by_cases hc : v.2.1.toNat = i
          · rw [if_pos hc, if_pos ⟨hv, by omega⟩]
          · rw [if_neg hc, if_neg (by rintro ⟨-, h⟩; omega)]
        rw [hcond]
        ring
      · rw [hsum, sum_set_add g _ hlt, List.map_cons, List.sum_cons, if_pos hv]
        ring
    · obtain ⟨g', hrun, hlen, hpt, hsum⟩ := ih g
        (fun w hw hwt => hidx w (List.mem_cons_of_mem _ hw) hwt)
      have hstep : applyVotes wrap g (v :: rest) = applyVotes wrap g rest := by
        simp only [applyVotes, hv, if_false, Bool.false_eq_true]
      refine ⟨g', by rw [hstep, hrun], hlen, ?_, ?_⟩
      · intro i hi
        rw [hpt i hi, List.map_cons, List.sum_cons,
          if_neg (by rintro ⟨h, -⟩; exact hv h)]
        ring
      · rw [hsum, List.map_cons, List.sum_cons, if_neg hv]
        ring

/-- Success-and-characterization of the NumPy builder: when every enabled vote
index is a valid nonnegative flat index, the builder succeeds, returns the
normalized events, and each cell (resp. the grid total) is the sum of the
matching (resp. all) enabled per-event contributions. -/
lemma events_to_voxel_grid_char (events : List Event) (num_bins width height : ℕ)
    (hne : events ≠ []) (hnb : num_bins ≠ 0) (hw : width ≠ 0) (hh : height ≠ 0)
    (hidx : ∀ e ∈ npNormalize num_bins events,
      ((leftVoteNp num_bins width height e).1 = true →
        0 ≤ (leftVoteNp num_bins width height e).2.1 ∧
          (leftVoteNp num_bins width height e).2.1 < ((num_bins * height * width : ℕ) : ℤ)) ∧
      ((rightVoteNp num_bins width height e).1 = true →
        0 ≤ (rightVoteNp num_bins width height e).2.1 ∧
          (rightVoteNp num_bins width height e).2.1 < ((num_bins * height * width : ℕ) : ℤ))) :
    ∃ g, events_to_voxel_grid events num_bins width height
        = .ok (g, npNormalize num_bins events) ∧
      g.length = num_bins * height * width ∧
      (∀ i : ℕ, i < num_bins * height * width →
        g.getD i 0 = ((npNormalize num_bins events).map fun e =>
          contribAt (leftVoteNp num_bins width height e)
            (rightVoteNp num_bins width height e) i).sum) ∧
      g.sum = ((npNormalize num_bins events).map fun e =>
        contribTotal (leftVoteNp num_bins width height e)
          (rightVoteNp num_bins width height e)).sum := by
  have hcond : ¬(events = [] ∨ num_bins = 0 ∨ width = 0 ∨ height = 0) := by
    push_neg
    exact ⟨hne, hnb, hw, hh⟩
  have hlen0 : (List.replicate (num_bins * height * width) (0 : ℚ)).length
      = num_bins * height * width := List.length_replicate _ _
  obtain ⟨g1, hrun1, hlen1, hpt1, hsum1⟩ :=
    applyVotes_ok true
      ((npNormalize num_bins events).map (leftVoteNp num_bins width height))
      (List.replicate (num_bins * height * width) (0 : ℚ))
      (by
        intro v hv hvt
        obtain ⟨e, he, rfl⟩ := List.mem_map.mp hv
        rw [hlen0]
        exact (hidx e he).1 hvt)
  obtain ⟨g2, hrun2, hlen2, hpt2, hsum2⟩ :=
    applyVotes_ok true
      ((npNormalize num_bins events).map (rightVoteNp num_bins width height)) g1
      (by
        intro v hv hvt
        obtain ⟨e, he, rfl⟩ := List.mem_map.mp hv
        rw [hlen1, hlen0]
        exact (hidx e he).2 hvt)
  refine ⟨g2, ?_, by rw [hlen2, hlen1, hlen0], ?_, ?_⟩
  · simp only [events_to_voxel_grid, if_neg hcond]
    simp only [hrun1, hrun2]
  · intro i hi
    rw [hpt2 i (by rw [hlen1, hlen0]; exact hi), hpt1 i (by rw [hlen0]; exact hi),
      getD_replicate_zero, zero_add, List.map_map, List.map_map]
    simp only [contribAt, List.sum_map_add, Function.comp_def]
  · rw [hsum2, hsum1, List.sum_replicate, smul_zero, zero_add, List.map_map, List.map_map]
    simp only [contribTotal, List.sum_map_add, Function.comp_def]

/-- Success-and-characterization of the PyTorch builder, in the same form. -/
lemma events_to_voxel_grid_pytorch_char (events : List Event) (num_bins width height : ℕ)
    (hne : events ≠ []) (hnb : num_bins ≠ 0) (hw : width ≠ 0) (hh : height ≠ 0)
    (hidx : ∀ e ∈ ptNormalize num_bins events,
      ((leftVotePt num_bins width height e).1 = true →
        0 ≤ (leftVotePt num_bins width height e).2.1 ∧
          (leftVotePt num_bins width height e).2.1 < ((num_bins * height * width : ℕ) : ℤ)) ∧
      ((rightVotePt num_bins width height e).1 = true →
        0 ≤ (rightVotePt num_bins width height e).2.1 ∧
          (rightVotePt num_bins width height e).2.1 < ((num_bins * height * width : ℕ) : ℤ))) :
    ∃ g, events_to_voxel_grid_pytorch events num_bins width height
        = .ok (g, ptNormalize num_bins events) ∧
      g.length = num_bins * height * width ∧
      (∀ i : ℕ, i < num_bins * height * width →
        g.getD i 0 = ((ptNormalize num_bins events).map fun e =>
          contribAt (leftVotePt num_bins width height e)
            (rightVotePt num_bins width height e) i).sum) ∧
      g.sum = ((ptNormalize num_bins events).map fun e =>
        contribTotal (leftVotePt num_bins width height e)
          (rightVotePt num_bins width height e)).sum := by
  have hcond : ¬(events = [] ∨ num_bins = 0 ∨ width = 0 ∨ height = 0) := by
    push_neg
    exact ⟨hne, hnb, hw, hh⟩
  have hlen0 : (List.replicate (num_bins * height * width) (0 : ℚ)).length
      = num_bins * height * width := List.length_replicate _ _
  obtain ⟨g1, hrun1, hlen1, hpt1, hsum1⟩ :=
    applyVotes_ok false
      ((ptNormalize num_bins events).map (leftVotePt num_bins width height))
      (List.replicate (num_bins * height * width) (0 : ℚ))
      (by
        intro v hv hvt
        obtain ⟨e, he, rfl⟩ := List.mem_map.mp hv
        rw [hlen0]
        exact (hidx e he).1 hvt)
  obtain ⟨g2, hrun2, hlen2, hpt2, hsum2⟩ :=
    applyVotes_ok false
      ((ptNormalize num_bins events).map (rightVotePt num_bins width height)) g1
      (by
        intro v hv hvt
        obtain ⟨e, he, rfl⟩ := List.mem_map.mp hv
        rw [hlen1, hlen0]
        exact (hidx e he).2 hvt)
  refine ⟨g2, ?_, by rw [hlen2, hlen1, hlen0], ?_, ?_⟩
  · simp only [events_to_voxel_grid_pytorch, if_neg hcond]
    simp only [hrun1, hrun2]
  · intro i hi
    rw [hpt2 i (by rw [hlen1, hlen0]; exact hi), hpt1 i (by rw [hlen0]; exact hi),
      getD_replicate_zero, zero_add, List.map_map, List.map_map]
    simp only [contribAt, List.sum_map_add, Function.comp_def]
  · rw [hsum2, hsum1, List.sum_replicate, smul_zero, zero_add, List.map_map, List.map_map]
    simp only [contribTotal, List.sum_map_add, Function.comp_def]

lemma ratTrunc_eq_floor {q : ℚ} (h : 0 ≤ q) : ratTrunc q = ⌊q⌋ := if_pos h

lemma ratTrunc_nonneg {q : ℚ} (h : 0 ≤ q) : 0 ≤ ratTrunc q := by
  rw [ratTrunc_eq_floor h]
  exact Int.floor_nonneg.mpr h

lemma deltaT_ne_zero (events : List Event) : deltaT events ≠ 0 := by
  unfold deltaT
  split
  · exact one_ne_zero
  · assumption

lemma binPos_self_first (num_bins : ℕ) (events : List Event) :
    binPos num_bins events (first_stamp events) = 0 := by
  unfold binPos
  rw [sub_self, mul_zero, zero_div]

lemma first_le_of_sorted {events : List Event}
    (hs : events.Pairwise fun a b => a.t ≤ b.t) :
    ∀ e ∈ events, first_stamp events ≤ e.t := by
  match events with
  | [] => intro e he; cases he
  | a :: tl =>
    intro e he
    rcases List.mem_cons.mp he with rfl | he'
    · exact le_refl _
    · exact (List.pairwise_cons.mp hs).1 e he'

lemma le_last_of_sorted {events : List Event}
    (hs : events.Pairwise fun a b => a.t ≤ b.t) :
    ∀ e ∈ events, e.t ≤ last_stamp events := by
  induction events with
  | nil => intro e he; cases he
  | cons a tl ih =>
    intro e he
    obtain ⟨ha, htl⟩ := List.pairwise_cons.mp hs
    match tl, he with
    | [], he =>
      rcases List.mem_cons.mp he with rfl | he'
      · exact le_of_eq rfl
      · cases he'
    | b :: tl', he =>
      have hlast : last_stamp (a :: b :: tl') = last_stamp (b :: tl') := by
        unfold last_stamp
        rw [List.getLast?_cons_cons]
      rw [hlast]
      rcases List.mem_cons.mp he with rfl | he'
      · exact le_trans (ha _ (List.getLast_mem (by simp)))
          (le_of_eq (by
            unfold last_stamp
            rw [List.getLast?_eq_getLast _ (by simp)]
            rfl))
      · exact ih htl e he'

lemma sorted_deltaT_nonneg {events : List Event} (hne : events ≠ [])
    (hs : events.Pairwise fun a b => a.t ≤ b.t) :
    0 ≤ last_stamp events - first_stamp events := by
  have h1 : first_stamp events ≤ last_stamp events := by
    match events with
    | a :: tl =>
      have : (a :: tl).getLast (by simp) ∈ a :: tl := List.getLast_mem _
      have h2 := le_last_of_sorted hs _ (List.mem_cons_self a tl)
      exact h2
  linarith

/-- For a batch sorted by ascending timestamp, every normalized bin position
lies in `[0, num_bins - 1]`. -/
lemma binPos_bounds {events : List Event} {num_bins : ℕ} (hne : events ≠ [])
    (hnb : num_bins ≠ 0) (hs : events.Pairwise fun a b => a.t ≤ b.t) :
    ∀ e ∈ events, 0 ≤ binPos num_bins events e.t
      ∧ binPos num_bins events e.t ≤ (num_bins : ℚ) - 1 := by
  intro e he
  have hf := first_le_of_sorted hs e he
  have hl := le_last_of_sorted hs e he
  have hnb1 : (0 : ℚ) ≤ (num_bins : ℚ) - 1 := by
    have : (1 : ℚ) ≤ (num_bins : ℚ) := by
      exact_mod_cast Nat.one_le_iff_ne_zero.mpr hnb
    linarith
  by_cases hd : last_stamp events - first_stamp events = 0
  · have het : e.t = first_stamp events := le_antisymm (by linarith) hf
    rw [het, binPos_self_first]
    exact ⟨le_refl _, hnb1⟩
  · have hdpos : 0 < last_stamp events - first_stamp events :=
      lt_of_le_of_ne (sorted_deltaT_nonneg hne hs) (Ne.symm hd)
    have hdT : deltaT events = last_stamp events - first_stamp events := by
      unfold deltaT
      rw [if_neg hd]
    constructor
    · unfold binPos
      rw [hdT]
      exact div_nonneg (mul_nonneg hnb1 (by linarith)) (le_of_lt hdpos)
    · unfold binPos
      rw [hdT, mul_div_assoc]
      calc ((num_bins : ℚ) - 1)
            * ((e.t - first_stamp events) / (last_stamp events - first_stamp events))
          ≤ ((num_bins : ℚ) - 1) * 1 := by
            refine mul_le_mul_of_nonneg_left ?_ hnb1
            rw [div_le_one hdpos]
            linarith
        _ = (num_bins : ℚ) - 1 := mul_one _

/-- The flat index `x + y * width + t * (width * height)` of an in-range triple
is an in-range flat position of the `(num_bins, height, width)` grid. -/
lemma flatIndex_range {tx ty ti : ℤ} {num_bins width height : ℕ}
    (hx0 : 0 ≤ tx) (hx1 : tx < (width : ℤ)) (hy0 : 0 ≤ ty) (hy1 : ty < (height : ℤ))
    (ht0 : 0 ≤ ti) (ht1 : ti < (num_bins : ℤ)) :
    0 ≤ tx + ty * (width : ℤ) + ti * ((width : ℤ) * (height : ℤ))
      ∧ tx + ty * (width : ℤ) + ti * ((width : ℤ) * (height : ℤ))
        < ((num_bins * height * width : ℕ) : ℤ) := by
  constructor
  · have h1 : 0 ≤ ty * (width : ℤ) := mul_nonneg hy0 (by positivity)
    have h2 : 0 ≤ ti * ((width : ℤ) * (height : ℤ)) := mul_nonneg ht0 (by positivity)
    linarith
  · push_cast
    have h1 : tx ≤ (width : ℤ) - 1 := by omega
    have h2 : ty * (width : ℤ) ≤ ((height : ℤ) - 1) * (width : ℤ) :=
      mul_le_mul_of_nonneg_right (by omega) (by positivity)
    have h3 : ti * ((width : ℤ) * (height : ℤ))
        ≤ ((num_bins : ℤ) - 1) * ((width : ℤ) * (height : ℤ)) :=
      mul_le_mul_of_nonneg_right (by omega) (by positivity)
    have hw1 : (1 : ℤ) ≤ (width : ℤ) := by omega
    nlinarith [h1, h2, h3]

/-- The exact natural ceiling division implements the real `ceil(a / b)`. -/
lemma nat_ceil_div (a b : ℕ) (hb : b ≠ 0) : ⌈(a : ℚ) / (b : ℚ)⌉₊ = (a + b - 1) / b := by
  have hb0 : 0 < b := Nat.pos_of_ne_zero hb
  have hbq : (0 : ℚ) < (b : ℚ) := by exact_mod_cast hb0
  have hsub : a + b - 1 = a + (b - 1) := by omega
  apply le_antisymm
  · rw [Nat.ceil_le, div_le_iff₀ hbq]
    have h1 := Nat.div_add_mod (a + b - 1) b
    have h2 := Nat.mod_lt (a + b - 1) hb0
    have h3 : a ≤ (a + b - 1) / b * b := by
      rw [Nat.mul_comm] at h1
      omega
    exact_mod_cast h3
  · have h4 : (a : ℚ) ≤ (⌈(a : ℚ) / (b : ℚ)⌉₊ : ℚ) * (b : ℚ) := by
      rw [← div_le_iff₀ hbq]
      exact Nat.le_ceil _
    have h5 : a ≤ ⌈(a : ℚ) / (b : ℚ)⌉₊ * b := by exact_mod_cast h4
    rw [Nat.div_le_iff_le_mul_add_pred hb0]
    have h6 : b * ⌈(a : ℚ) / (b : ℚ)⌉₊ = ⌈(a : ℚ) / (b : ℚ)⌉₊ * b := Nat.mul_comm _ _
    omega

/-- Everything C6 asserts about one dimension of the crop-size computation. -/
lemma optimal_crop_size_spec (t n s : ℕ) (ht : t ≠ 0) :
    optimal_crop_size t n s = 2 ^ n * ⌈(t : ℚ) / ((2 ^ n : ℕ) : ℚ)⌉₊ + s * 2 ^ n ∧
      2 ^ n ∣ optimal_crop_size t n s ∧
      t ≤ optimal_crop_size t n s ∧
      (∀ m : ℕ, 2 ^ n ∣ m → t ≤ m → optimal_crop_size t n 0 ≤ m) := by
  have hb : (2 : ℕ) ^ n ≠ 0 := by positivity
  have hb0 : 0 < (2 : ℕ) ^ n := Nat.pos_of_ne_zero hb
  have hle : t ≤ 2 ^ n * ((t + 2 ^ n - 1) / 2 ^ n) := by
    have h1 := Nat.div_add_mod (t + 2 ^ n - 1) (2 ^ n)
    have h2 := Nat.mod_lt (t + 2 ^ n - 1) hb0
    omega
  refine ⟨?_, ?_, ?_, ?_⟩
  · rw [nat_ceil_div t (2 ^ n) hb]
    rfl
  · exact Dvd.dvd.add (Dvd.intro _ rfl) (Dvd.intro_left _ rfl)
  · calc t ≤ 2 ^ n * ((t + 2 ^ n - 1) / 2 ^ n) := hle
      _ ≤ optimal_crop_size t n s := Nat.le_add_right _ _
  · intro m hdvd htm
    obtain ⟨k, rfl⟩ := hdvd
    have hq : (t + 2 ^ n - 1) / 2 ^ n ≤ k := by
      rw [Nat.div_le_iff_le_mul_add_pred hb0]
      have h7 : 2 ^ n * k = k * 2 ^ n := Nat.mul_comm _ _
      omega
    have : 2 ^ n * ((t + 2 ^ n - 1) / 2 ^ n) ≤ 2 ^ n * k :=
      Nat.mul_le_mul_left _ hq
    unfold optimal_crop_size
    omega

/-- Claim C6: the working dimension is `2^num_levels * ceil(true / 2^num_levels)
+ safety_margin * 2^num_levels` (hence divisible by `2^num_levels` and, for
`safety_margin = 0`, the smallest such multiple that is `≥ true`), and the
padding is split as `pad_before = ceil((working - true)/2)`,
`pad_after = floor((working - true)/2)`, so the two pads sum to
`working - true` and the leading side gets the extra pixel when the
difference is odd.  Stated for both dimensions of `CropParameters`. -/
theorem C6_working_size_and_padding (w h n s : ℕ) (hw : 0 < w) (hh : 0 < h) :
    ((mkCropParameters w h n s).width_crop_size
        = 2 ^ n * ⌈(w : ℚ) / ((2 ^ n : ℕ) : ℚ)⌉₊ + s * 2 ^ n
      ∧ (mkCropParameters w h n s).height_crop_size
        = 2 ^ n * ⌈(h : ℚ) / ((2 ^ n : ℕ) : ℚ)⌉₊ + s * 2 ^ n)
    ∧ (2 ^ n ∣ (mkCropParameters w h n s).width_crop_size
      ∧ 2 ^ n ∣ (mkCropParameters w h n s).height_crop_size)
    ∧ (s = 0 → ∀ m : ℕ, 2 ^ n ∣ m → w ≤ m → (mkCropParameters w h n 0).width_crop_size ≤ m)
    ∧ (s = 0 → ∀ m : ℕ, 2 ^ n ∣ m → h ≤ m → (mkCropParameters w h n 0).height_crop_size ≤ m)
    ∧ (w ≤ (mkCropParameters w h n s).width_crop_size
      ∧ h ≤ (mkCropParameters w h n s).height_crop_size)
    ∧ ((mkCropParameters w h n s).padding_left
          = ⌈(((mkCropParameters w h n s).width_crop_size - w : ℕ) : ℚ) / 2⌉₊
      ∧ (mkCropParameters w h n s).padding_right
          = ⌊(((mkCropParameters w h n s).width_crop_size - w : ℕ) : ℚ) / 2⌋₊
      ∧ (mkCropParameters w h n s).padding_top
          = ⌈(((mkCropParameters w h n s).height_crop_size - h : ℕ) : ℚ) / 2⌉₊
      ∧ (mkCropParameters w h n s).padding_bottom
          = ⌊(((mkCropParameters w h n s).height_crop_size - h : ℕ) : ℚ) / 2⌋₊)
    ∧ ((mkCropParameters w h n s).padding_left + (mkCropParameters w h n s).padding_right
          = (mkCropParameters w h n s).width_crop_size - w
      ∧ (mkCropParameters w h n s).padding_top + (mkCropParameters w h n s).padding_bottom
          = (mkCropParameters w h n s).height_crop_size - h)
    ∧ ((mkCropParameters w h n s).padding_left = (mkCropParameters w h n s).padding_right
          + ((mkCropParameters w h n s).width_crop_size - w) % 2
      ∧ (mkCropParameters w h n s).padding_top = (mkCropParameters w h n s).padding_bottom
          + ((mkCropParameters w h n s).height_crop_size - h) % 2) := by
  obtain ⟨hw1, hw2, hw3, hw4⟩ := optimal_crop_size_spec w n s (Nat.pos_iff_ne_zero.mp hw)
  obtain ⟨hh1, hh2, hh3, hh4⟩ := optimal_crop_size_spec h n s (Nat.pos_iff_ne_zero.mp hh)
  have hpadc : ∀ d : ℕ, (d + 1) / 2 = ⌈(d : ℚ) / 2⌉₊ := by
    intro d
    rw [show ((2 : ℚ)) = ((2 : ℕ) : ℚ) by norm_num, nat_ceil_div d 2 (by omega)]
    omega
  have hpadf : ∀ d : ℕ, d / 2 = ⌊(d : ℚ) / 2⌋₊ := by
    intro d
    rw [show ((2 : ℚ)) = ((2 : ℕ) : ℚ) by norm_num, Nat.floor_div_nat, Nat.floor_natCast]
  refine ⟨⟨hw1, hh1⟩, ⟨hw2, hh2⟩, fun _ => hw4, fun _ => hh4, ⟨hw3, hh3⟩, ?_, ?_, ?_⟩
  · exact ⟨(hpadc _).symm ▸ rfl, (hpadf _).symm ▸ rfl,
      (hpadc _).symm ▸ rfl, (hpadf _).symm ▸ rfl⟩
  · constructor
    · show (optimal_crop_size w n s - w + 1) / 2 + (optimal_crop_size w n s - w) / 2
          = optimal_crop_size w n s - w
      omega
    · show (optimal_crop_size h n s - h + 1) / 2 + (optimal_crop_size h n s - h) / 2
          = optimal_crop_size h n s - h
      omega
  · constructor
    · show (optimal_crop_size w n s - w + 1) / 2
          = (optimal_crop_size w n s - w) / 2 + (optimal_crop_size w n s - w) % 2
      omega
    · show (optimal_crop_size h n s - h + 1) / 2
          = (optimal_crop_size h n s - h) / 2 + (optimal_crop_size h n s - h) % 2
      omega

/-- Witness for C6 at `w = 13, h = 7, n = 2, s = 1`. -/
theorem C6_working_size_and_padding_witness :
    (0 : ℕ) < 13 ∧ (0 : ℕ) < 7 ∧
      ((mkCropParameters 13 7 2 1).width_crop_size
          = 2 ^ 2 * ⌈(13 : ℚ) / ((2 ^ 2 : ℕ) : ℚ)⌉₊ + 1 * 2 ^ 2
        ∧ (mkCropParameters 13 7 2 1).height_crop_size
          = 2 ^ 2 * ⌈(7 : ℚ) / ((2 ^ 2 : ℕ) : ℚ)⌉₊ + 1 * 2 ^ 2) :=
  ⟨by decide, by decide, (C6_working_size_and_padding 13 7 2 1 (by decide) (by decide)).1⟩

/-- With `safety_margin = 0` the center-based crop start coincides with the
leading pad: `floor(working/2) - floor(true/2) = ceil((working - true)/2)`. -/
lemma crop_center_eq_pad (t n : ℕ) (ht : 0 < t) :
    optimal_crop_size t n 0 / 2 - t / 2 = (optimal_crop_size t n 0 - t + 1) / 2 := by
  have hle : t ≤ optimal_crop_size t n 0 := (optimal_crop_size_spec t n 0 ht.ne').2.2.1
  rcases Nat.eq_zero_or_pos n with hn | hn
  · subst hn
    have hc : optimal_crop_size t 0 0 = t := by
      show 2 ^ 0 * ((t + 2 ^ 0 - 1) / 2 ^ 0) + 0 * 2 ^ 0 = t
      norm_num
    rw [hc]
    omega
  · have h2 : (2 : ℕ) ∣ optimal_crop_size t n 0 :=
      dvd_trans (dvd_pow_self 2 hn.ne') (optimal_crop_size_spec t n 0 ht.ne').2.1
    obtain ⟨m, hm⟩ := h2
    rw [hm] at hle ⊢
    omega

/-- Claim C4: padding a `height × width` image on the four sides by the computed
pad amounts (with an arbitrary border fill) and then applying the computed
center-based crop window returns the original image pixel-for-pixel (so the
crop never reads a padded border pixel). -/
theorem C4_pad_crop_roundtrip (w h n : ℕ) (hw : 0 < w) (hh : 0 < h)
    (img fill : ℕ → ℕ → ℚ) (y x : ℕ) (hy : y < h) (hx : x < w) :
    cropApply (mkCropParameters w h n 0) (padApply (mkCropParameters w h n 0) img fill) y x
      = img y x := by
  have hix0 : (mkCropParameters w h n 0).ix0 = (mkCropParameters w h n 0).padding_left := by
    show optimal_crop_size w n 0 / 2 - w / 2 = (optimal_crop_size w n 0 - w + 1) / 2
    exact crop_center_eq_pad w n hw
  have hiy0 : (mkCropParameters w h n 0).iy0 = (mkCropParameters w h n 0).padding_top := by
    show optimal_crop_size h n 0 / 2 - h / 2 = (optimal_crop_size h n 0 - h + 1) / 2
    exact crop_center_eq_pad h n hh
  unfold cropApply padApply
  rw [hix0, hiy0]
  rw [if_pos]
  · congr 1
    · omega
    · omega
  · have hht : (mkCropParameters w h n 0).height = h := rfl
    have hwt : (mkCropParameters w h n 0).width = w := rfl
    refine ⟨Nat.le_add_right _ _, by omega, Nat.le_add_right _ _, by omega⟩

/-- Witness for C4 at `w = 3, h = 2, n = 1`, an adversarial border fill, and
pixel `(1, 2)`. -/
theorem C4_pad_crop_roundtrip_witness :
    (0 : ℕ) < 3 ∧ (0 : ℕ) < 2 ∧ (1 : ℕ) < 2 ∧ (2 : ℕ) < 3 ∧
      cropApply (mkCropParameters 3 2 1 0)
          (padApply (mkCropParameters 3 2 1 0) (fun y x => (10 : ℚ) * y + x) (fun _ _ => 99))
          1 2
        = (10 : ℚ) * 1 + 2 :=
  ⟨by decide, by decide, by decide, by decide,
    C4_pad_crop_roundtrip 3 2 1 (by decide) (by decide)
      (fun y x => (10 : ℚ) * y + x) (fun _ _ => 99) 1 2 (by decide) (by decide)⟩

/-- Claim C7: `CropParameters(width=13, height=13, num_encoders=2)` yields
working sizes 16, pads 2 (leading) and 1 (trailing), center 8, and the crop
window `[2, 15)` in both axes, whose application to any 16×16 canvas reads
exactly the 13×13 block starting at `(2, 2)`. -/
theorem C7_alignment_13_13_2 :
    (mkCropParameters 13 13 2 0).width_crop_size = 16
    ∧ (mkCropParameters 13 13 2 0).height_crop_size = 16
    ∧ (mkCropParameters 13 13 2 0).padding_left = 2
    ∧ (mkCropParameters 13 13 2 0).padding_top = 2
    ∧ (mkCropParameters 13 13 2 0).padding_right = 1
    ∧ (mkCropParameters 13 13 2 0).padding_bottom = 1
    ∧ (mkCropParameters 13 13 2 0).cx = 8
    ∧ (mkCropParameters 13 13 2 0).cy = 8
    ∧ (mkCropParameters 13 13 2 0).ix0 = 2
    ∧ (mkCropParameters 13 13 2 0).ix1 = 15
    ∧ (mkCropParameters 13 13 2 0).iy0 = 2
    ∧ (mkCropParameters 13 13 2 0).iy1 = 15
    ∧ (mkCropParameters 13 13 2 0).ix1 - (mkCropParameters 13 13 2 0).ix0 = 13
    ∧ (mkCropParameters 13 13 2 0).iy1 - (mkCropParameters 13 13 2 0).iy0 = 13
    ∧ ∀ canvas : ℕ → ℕ → ℚ, ∀ y x : ℕ,
        cropApply (mkCropParameters 13 13 2 0) canvas y x = canvas (2 + y) (2 + x) := by
  refine ⟨by decide, by decide, by decide, by decide, by decide, by decide, by decide,
    by decide, by decide, by decide, by decide, by decide, by decide, by decide, ?_⟩
  intro canvas y x
  rfl

/-- Claim C9: `shift_image` with the shifts used by the compositor is a clamped
(non-circular) shift: in-range pixels read `X[y - dy, x - dx]` and the rows and
columns exposed by the shift are zero-filled; and the compositor shifts B by
`(dx=1, dy=1)`, G by `(dx=1, dy=0)`, W by `(dx=0, dy=1)` and leaves R
unshifted. -/
theorem C9_clamped_shift (Hr Wc : ℕ) (X : ℕ → ℕ → ℚ) (dx dy : ℤ)
    (hdx : dx = 0 ∨ dx = 1) (hdy : dy = 0 ∨ dy = 1)
    (y x : ℕ) (hy : y < Hr) (hx : x < Wc)
    (resize2x : (ℕ → ℕ → ℚ) → ℕ → ℕ → ℚ) (channels : ChannelSet) :
    (shift_image Hr Wc X dx dy y x
      = if dy ≤ (y : ℤ) ∧ dx ≤ (x : ℤ) then X (y - dy.toNat) (x - dx.toNat) else 0)
    ∧ (shiftedChannels Hr Wc resize2x channels).B
        = shift_image Hr Wc (resize2x channels.B) 1 1
    ∧ (shiftedChannels Hr Wc resize2x channels).G
        = shift_image Hr Wc (resize2x channels.G) 1 0
    ∧ (shiftedChannels Hr Wc resize2x channels).W
        = shift_image Hr Wc (resize2x channels.W) 0 1
    ∧ (shiftedChannels Hr Wc resize2x channels).R = resize2x channels.R := by
  have hdx' : 0 ≤ dx ∧ dx ≤ 1 := by rcases hdx with rfl | rfl <;> norm_num
  have hdy' : 0 ≤ dy ∧ dy ≤ 1 := by rcases hdy with rfl | rfl <;> norm_num
  refine ⟨?_, rfl, rfl, rfl, rfl⟩
  unfold shift_image
  by_cases hcy : dy ≤ (y : ℤ)
  · by_cases hcx : dx ≤ (x : ℤ)
    · rw [if_neg (by rintro (⟨h3, h4⟩ | ⟨h3, h4⟩) <;> omega),
        if_neg (by rintro (⟨h3, h4⟩ | ⟨h3, h4⟩) <;> omega),
        if_pos ⟨hcy, hcx⟩]
      have h1 : ((y : ℤ) - dy).emod (Hr : ℤ) = (y : ℤ) - dy :=
        Int.emod_eq_of_lt (by omega) (by omega)
      have h2 : ((x : ℤ) - dx).emod (Wc : ℤ) = (x : ℤ) - dx :=
        Int.emod_eq_of_lt (by omega) (by omega)
      rw [h1, h2]
      congr 1
      · omega
      · omega
    · rw [if_neg (by rintro (⟨h3, h4⟩ | ⟨h3, h4⟩) <;> omega),
        if_pos (by left; exact ⟨by omega, by omega⟩),
        if_neg (by rintro ⟨-, h4⟩; exact hcx h4)]
  · rw [if_pos (by left; exact ⟨by omega, by omega⟩),
      if_neg (by rintro ⟨h3, -⟩; exact hcy h3)]

/-- Witness for C9 at a concrete image, `dx = dy = 1`, pixel `(2, 1)`. -/
theorem C9_clamped_shift_witness :
    ((1 : ℤ) = 0 ∨ (1 : ℤ) = 1) ∧ (2 : ℕ) < 3 ∧ (1 : ℕ) < 3 ∧
      shift_image 3 3 (fun y x => (10 : ℚ) * y + x) 1 1 2 1
        = (if (1 : ℤ) ≤ (2 : ℕ) ∧ (1 : ℤ) ≤ (1 : ℕ) then
            (10 : ℚ) * ((2 - (1 : ℤ).toNat : ℕ) : ℚ) + ((1 - (1 : ℤ).toNat : ℕ) : ℚ)
          else 0) :=
  ⟨Or.inr rfl, by decide, by decide,
    (C9_clamped_shift 3 3 (fun y x => (10 : ℚ) * y + x) 1 1 (Or.inr rfl) (Or.inr rfl)
      2 1 (by decide) (by decide) (fun M => M)
      ⟨fun _ _ => 0, fun _ _ => 0, fun _ _ => 0, fun _ _ => 0, fun _ _ => 0⟩).1⟩

/-- Round to the nearest integer (the conversion C8 claims the code uses). -/
def roundNearest (q : ℚ) : ℤ := ⌊q + 1/2⌋

/-- On `[0, 1]`-valued data, the 8-bit conversion of the compositor is exactly
`floor(255 * v)` — truncation toward zero, with the `mod 256` wrap inactive. -/
lemma toUint8_eq_floor {v : ℚ} (h0 : 0 ≤ v) (h1 : v ≤ 1) : toUint8 v = ⌊255 * v⌋ := by
  unfold toUint8
  rw [ratTrunc_eq_floor (by positivity)]
  apply Int.emod_eq_of_lt
  · exact Int.floor_nonneg.mpr (by positivity)
  · have h2 : (255 : ℚ) * v ≤ 255 := by nlinarith
    have h3 : ⌊(255 : ℚ) * v⌋ ≤ ⌊(255 : ℚ)⌋ := Int.floor_le_floor h2
    have h4 : ⌊(255 : ℚ)⌋ = 255 := by norm_num
    omega

/-- A clamped shift of a `[0, 1]`-valued image is `[0, 1]`-valued. -/
lemma shift_image_range {Hr Wc : ℕ} {X : ℕ → ℕ → ℚ} {dx dy : ℤ}
    (h : ∀ y x, 0 ≤ X y x ∧ X y x ≤ 1) (y x : ℕ) :
    0 ≤ shift_image Hr Wc X dx dy y x ∧ shift_image Hr Wc X dx dy y x ≤ 1 := by
  unfold shift_image
  split
  · norm_num
  · split
    · norm_num
    · exact h _ _

/-- Claim C8 (amended): the low-frequency BGR estimate is composed as
`B_channel = B`, `G_channel = 0.5 * (G + W)`, `R_channel = R` on the shifted,
upsampled channels, and both it and the grayscale channel are converted to the
8-bit range by multiplying by 255 and truncating toward zero (`floor` on these
nonnegative values) — not by rounding to the nearest integer. -/
theorem C8_bgr_composition_and_8bit_truncation (Hr Wc : ℕ)
    (resize2x : (ℕ → ℕ → ℚ) → ℕ → ℕ → ℚ) (channels : ChannelSet)
    (hR : ∀ y x, 0 ≤ resize2x channels.R y x ∧ resize2x channels.R y x ≤ 1)
    (hG : ∀ y x, 0 ≤ resize2x channels.G y x ∧ resize2x channels.G y x ≤ 1)
    (hW : ∀ y x, 0 ≤ resize2x channels.W y x ∧ resize2x channels.W y x ≤ 1)
    (hB : ∀ y x, 0 ≤ resize2x channels.B y x ∧ resize2x channels.B y x ≤ 1)
    (hgray : ∀ y x, 0 ≤ channels.grayscale y x ∧ channels.grayscale y x ≤ 1)
    (y x : ℕ) :
    reconstruction_bgr Hr Wc resize2x channels y x
      = (⌊255 * (shiftedChannels Hr Wc resize2x channels).B y x⌋,
         ⌊255 * ((1 : ℚ)/2 * ((shiftedChannels Hr Wc resize2x channels).G y x
           + (shiftedChannels Hr Wc resize2x channels).W y x))⌋,
         ⌊255 * (shiftedChannels Hr Wc resize2x channels).R y x⌋)
    ∧ reconstruction_grayscale channels y x = ⌊255 * channels.grayscale y x⌋ := by
  obtain ⟨hB0, hB1⟩ : 0 ≤ (shiftedChannels Hr Wc resize2x channels).B y x
      ∧ (shiftedChannels Hr Wc resize2x channels).B y x ≤ 1 :=
    @shift_image_range Hr Wc (resize2x channels.B) 1 1 hB y x
  obtain ⟨hG0, hG1⟩ : 0 ≤ (shiftedChannels Hr Wc resize2x channels).G y x
      ∧ (shiftedChannels Hr Wc resize2x channels).G y x ≤ 1 :=
    @shift_image_range Hr Wc (resize2x channels.G) 1 0 hG y x
  obtain ⟨hW0, hW1⟩ : 0 ≤ (shiftedChannels Hr Wc resize2x channels).W y x
      ∧ (shiftedChannels Hr Wc resize2x channels).W y x ≤ 1 :=
    @shift_image_range Hr Wc (resize2x channels.W) 0 1 hW y x
  constructor
  · unfold reconstruction_bgr
    refine Prod.ext ?_ (Prod.ext ?_ ?_)
    · exact toUint8_eq_floor hB0 hB1
    · exact toUint8_eq_floor (by linarith) (by linarith)
    · exact toUint8_eq_floor (hR y x).1 (hR y x).2
  · exact toUint8_eq_floor (hgray y x).1 (hgray y x).2

/-- All five channels constant `1/2`: a concrete `ChannelSet` on which
truncation and rounding of `255 * 0.5 = 127.5` differ. -/
def constHalfChannels : ChannelSet :=
  { R := fun _ _ => 1/2
    G := fun _ _ => 1/2
    W := fun _ _ => 1/2
    B := fun _ _ => 1/2
    grayscale := fun _ _ => 1/2 }

/-- Counterexample to C8 as stated: at interior pixel `(1, 1)` of the constant
`1/2` channel set (with an identity upsampler) the code produces the 8-bit
value 127 = trunc(127.5), whereas rounding `255 * 0.5` to the nearest integer
gives 128; the grayscale conversion differs the same way. -/
theorem C8_rounding_counterexample :
    (reconstruction_bgr 4 4 (fun M => M) constHalfChannels 1 1).2.1 = 127
    ∧ roundNearest (255 * ((1 : ℚ)/2
        * ((shiftedChannels 4 4 (fun M => M) constHalfChannels).G 1 1
          + (shiftedChannels 4 4 (fun M => M) constHalfChannels).W 1 1))) = 128
    ∧ reconstruction_grayscale constHalfChannels 1 1 = 127
    ∧ roundNearest (255 * constHalfChannels.grayscale 1 1) = 128 := by
  refine ⟨?_, ?_, ?_, ?_⟩ <;> with_unfolding_all decide

/-- Witness for C8 (amended) at the constant `1/2` channel set, identity
upsampler, pixel `(1, 1)`. -/
theorem C8_bgr_composition_and_8bit_truncation_witness :
    reconstruction_bgr 4 4 (fun M => M) constHalfChannels 1 1
      = (⌊255 * (shiftedChannels 4 4 (fun M => M) constHalfChannels).B 1 1⌋,
         ⌊255 * ((1 : ℚ)/2 * ((shiftedChannels 4 4 (fun M => M) constHalfChannels).G 1 1
           + (shiftedChannels 4 4 (fun M => M) constHalfChannels).W 1 1))⌋,
         ⌊255 * (shiftedChannels 4 4 (fun M => M) constHalfChannels).R 1 1⌋)
    ∧ reconstruction_grayscale constHalfChannels 1 1
      = ⌊255 * constHalfChannels.grayscale 1 1⌋ := by
  exact C8_bgr_composition_and_8bit_truncation 4 4 (fun M => M) constHalfChannels
    (fun _ _ => ⟨by norm_num [constHalfChannels], by norm_num [constHalfChannels]⟩)
    (fun _ _ => ⟨by norm_num [constHalfChannels], by norm_num [constHalfChannels]⟩)
    (fun _ _ => ⟨by norm_num [constHalfChannels], by norm_num [constHalfChannels]⟩)
    (fun _ _ => ⟨by norm_num [constHalfChannels], by norm_num [constHalfChannels]⟩)
    (fun _ _ => ⟨by norm_num [constHalfChannels], by norm_num [constHalfChannels]⟩)
    1 1

/-- All four color channels and the grayscale channel constant 1. -/
def constOneChannels : ChannelSet :=
  { R := fun _ _ => 1
    G := fun _ _ => 1
    W := fun _ _ => 1
    B := fun _ _ => 1
    grayscale := fun _ _ => 1 }

/-- Claim C5 (amended): the builder's only output is the returned grid, but it
rewrites the caller's event array in place — on any successful run the caller's
array ends up with its timestamp column replaced by the normalized bin position
and its zero polarities replaced by -1; likewise the compositor overwrites the
caller's channel mapping entries R, G, W, B with the upsampled (and, for B, G,
W, shifted) full-resolution arrays, keeping only `grayscale` intact. -/
theorem C5_observable_mutations (events : List Event) (num_bins width height : ℕ)
    (g : List ℚ) (evs' : List Event)
    (hrun : events_to_voxel_grid events num_bins width height = .ok (g, evs'))
    (Hr Wc : ℕ) (resize2x : (ℕ → ℕ → ℚ) → ℕ → ℕ → ℚ)
    (upsample_color_image : (ℕ → ℕ → ℤ) → (ℕ → ℕ → ℤ × ℤ × ℤ) → ℕ → ℕ → ℤ × ℤ × ℤ)
    (channels : ChannelSet) :
    evs' = events.map (fun e =>
        { e with t := binPos num_bins events e.t, p := normPolarity e.p })
    ∧ (merge_channels_into_color_image Hr Wc resize2x upsample_color_image channels).2
        = shiftedChannels Hr Wc resize2x channels
    ∧ (shiftedChannels Hr Wc resize2x channels).B
        = shift_image Hr Wc (resize2x channels.B) 1 1
    ∧ (shiftedChannels Hr Wc resize2x channels).G
        = shift_image Hr Wc (resize2x channels.G) 1 0
    ∧ (shiftedChannels Hr Wc resize2x channels).W
        = shift_image Hr Wc (resize2x channels.W) 0 1
    ∧ (shiftedChannels Hr Wc resize2x channels).R = resize2x channels.R
    ∧ (shiftedChannels Hr Wc resize2x channels).grayscale = channels.grayscale := by
  refine ⟨?_, rfl, rfl, rfl, rfl, rfl, rfl⟩
  unfold events_to_voxel_grid at hrun
  by_cases hcond : events = [] ∨ num_bins = 0 ∨ width = 0 ∨ height = 0
  · rw [if_pos hcond] at hrun
    cases hrun
  · rw [if_neg hcond] at hrun
    replace hrun :
        (match applyVotes true (List.replicate (num_bins * height * width) (0 : ℚ))
            ((npNormalize num_bins events).map (leftVoteNp num_bins width height)) with
          | .error s => (Except.error s : Except String (List ℚ × List Event))
          | .ok g1 =>
            match applyVotes true g1
                ((npNormalize num_bins events).map (rightVoteNp num_bins width height)) with
            | .error s => .error s
            | .ok g2 => .ok (g2, npNormalize num_bins events)) = .ok (g, evs') := hrun
    rcases h1 : applyVotes true (List.replicate (num_bins * height * width) (0 : ℚ))
        ((npNormalize num_bins events).map (leftVoteNp num_bins width height)) with s | g1
    · simp only [h1] at hrun
      cases hrun
    · simp only [h1] at hrun
      rcases h2 : applyVotes true g1
          ((npNormalize num_bins events).map (rightVoteNp num_bins width height)) with s | g2
      · simp only [h2] at hrun
        cases hrun
      · simp only [h2] at hrun
        injection hrun with hpair
        have hsnd : evs' = npNormalize num_bins events := (congrArg Prod.snd hpair).symm
        exact hsnd

/-- Counterexample to C5 as stated: after a (successful) call on the batch
`[(t=0, p=1), (t=2, p=0)]` with `num_bins = 2`, the caller's array holds
`[(t=0, p=1), (t=1, p=-1)]` — the timestamp column was rewritten to normalized
bin positions and the zero polarity to -1 — and after the compositor runs (with
an identity upsampler) the caller's B entry no longer holds the original
constant-1 quarter-resolution array: its pixel `(0, 0)` is now 0. -/
theorem C5_purity_counterexample :
    (events_to_voxel_grid
        [⟨0, 0, 0, 1⟩, ⟨2, 0, 0, 0⟩] 2 1 1).toOption.map Prod.snd
      = some [⟨0, 0, 0, 1⟩, ⟨1, 0, 0, -1⟩]
    ∧ ([⟨0, 0, 0, 1⟩, ⟨1, 0, 0, -1⟩] : List Event) ≠ [⟨0, 0, 0, 1⟩, ⟨2, 0, 0, 0⟩]
    ∧ (merge_channels_into_color_image 2 2 (fun M => M) (fun _ bgr => bgr)
        constOneChannels).2.B 0 0 = 0
    ∧ constOneChannels.B 0 0 = 1 := by
  refine ⟨?_, ?_, ?_, ?_⟩ <;> with_unfolding_all decide

/-- Witness for C5 (amended), on the same concrete run. -/
theorem C5_observable_mutations_witness :
    ([⟨0, 0, 0, 1⟩, ⟨1, 0, 0, -1⟩] : List Event)
        = ([⟨0, 0, 0, 1⟩, ⟨2, 0, 0, 0⟩] : List Event).map (fun e =>
            { e with t := binPos 2 [⟨0, 0, 0, 1⟩, ⟨2, 0, 0, 0⟩] e.t,
                     p := normPolarity e.p })
    ∧ (merge_channels_into_color_image 2 2 (fun M => M) (fun _ bgr => bgr)
          constOneChannels).2
        = shiftedChannels 2 2 (fun M => M) constOneChannels := by
  have h := C5_observable_mutations [⟨0, 0, 0, 1⟩, ⟨2, 0, 0, 0⟩] 2 1 1
    [(1 : ℚ), -1] [⟨0, 0, 0, 1⟩, ⟨1, 0, 0, -1⟩]
    (by with_unfolding_all rfl)
    2 2 (fun M => M) (fun _ bgr => bgr) constOneChannels
  exact ⟨h.1, h.2.1⟩

/-- One row of the caller's array after the NumPy builder's in-place
normalization. -/
def npEvent (num_bins : ℕ) (events : List Event) (e : Event) : Event :=
  { e with t := binPos num_bins events e.t, p := normPolarity e.p }

/-- One row after the PyTorch builder's in-place normalization. -/
def ptEvent (num_bins : ℕ) (events : List Event) (e : Event) : Event :=
  { e with t := binPos num_bins events e.t }

lemma npNormalize_eq (num_bins : ℕ) (events : List Event) :
    npNormalize num_bins events = events.map (npEvent num_bins events) := rfl

lemma ptNormalize_eq (num_bins : ℕ) (events : List Event) :
    ptNormalize num_bins events = events.map (ptEvent num_bins events) := rfl

/-- Claim C2: when each event's floor bin `b` and `b + 1` lie in
`[0, num_bins)` (and the events are spatially valid with 0/±1 raw
polarities), the builder succeeds, each event's two temporal contributions sum
to exactly its signed polarity (which is ±1), and the sum of all grid cells
equals the sum of the signed polarities. -/
theorem C2_grid_mass_equals_polarity_sum (events : List Event)
    (num_bins width height : ℕ)
    (hne : events ≠ []) (hnb : 0 < num_bins) (hw : 0 < width) (hh : 0 < height)
    (hx : ∀ e ∈ events, 0 ≤ ratTrunc e.x ∧ ratTrunc e.x < (width : ℤ))
    (hy : ∀ e ∈ events, 0 ≤ ratTrunc e.y ∧ ratTrunc e.y < (height : ℤ))
    (hp : ∀ e ∈ events, e.p = 0 ∨ e.p = 1 ∨ e.p = -1)
    (hbin : ∀ e ∈ events, 0 ≤ ⌊binPos num_bins events e.t⌋
      ∧ ⌊binPos num_bins events e.t⌋ + 1 < (num_bins : ℤ)) :
    ∃ g evs', events_to_voxel_grid events num_bins width height = .ok (g, evs')
      ∧ (∀ e ∈ events,
          (leftVoteNp num_bins width height (npEvent num_bins events e)).2.2
              + (rightVoteNp num_bins width height (npEvent num_bins events e)).2.2
            = normPolarity e.p
          ∧ (normPolarity e.p = 1 ∨ normPolarity e.p = -1))
      ∧ g.sum = (events.map fun e => normPolarity e.p).sum := by
  have htr : ∀ e ∈ events,
      ratTrunc (npEvent num_bins events e).t = ⌊binPos num_bins events e.t⌋ := by
    intro e he
    exact ratTrunc_eq_floor (Int.floor_nonneg.mp (hbin e he).1)
  obtain ⟨g, hrun, hlen, hpt, hsum⟩ :=
    events_to_voxel_grid_char events num_bins width height hne hnb.ne' hw.ne' hh.ne'
      (by
        rw [npNormalize_eq]
        intro e' he'
        obtain ⟨e, he, rfl⟩ := List.mem_map.mp he'
        obtain ⟨hb0, hb1⟩ := hbin e he
        have hxx := hx e he
        have hyy := hy e he
        constructor
        · intro _
          simp only [leftVoteNp]
          rw [htr e he]
          exact flatIndex_range hxx.1 hxx.2 hyy.1 hyy.2 hb0 (by omega)
        · intro _
          simp only [rightVoteNp]
          rw [htr e he]
          exact flatIndex_range hxx.1 hxx.2 hyy.1 hyy.2 (by omega) (by omega))
  refine ⟨g, npNormalize num_bins events, hrun, ?_, ?_⟩
  · intro e he
    constructor
    · simp only [leftVoteNp, rightVoteNp]
      have hpe : (npEvent num_bins events e).p = normPolarity e.p := rfl
      rw [hpe]
      ring
    · rcases hp e he with h0 | h0 | h0 <;> rw [h0] <;> unfold normPolarity <;> norm_num
  · rw [hsum, npNormalize_eq, List.map_map]
    refine congrArg List.sum (List.map_congr_left ?_)
    intro e he
    obtain ⟨hb0, hb1⟩ := hbin e he
    have hguardL : (leftVoteNp num_bins width height (npEvent num_bins events e)).1 = true := by
      simp only [leftVoteNp, decide_eq_true_eq]
      rw [htr e he]
      omega
    have hguardR : (rightVoteNp num_bins width height (npEvent num_bins events e)).1 = true := by
      simp only [rightVoteNp, decide_eq_true_eq]
      rw [htr e he]
      omega
    show contribTotal _ _ = normPolarity e.p
    unfold contribTotal
    rw [if_pos hguardL, if_pos hguardR]
    simp only [leftVoteNp, rightVoteNp]
    have hpe : (npEvent num_bins events e).p = normPolarity e.p := rfl
    rw [hpe]
    ring

/-- Witness for C2: a degenerate two-event batch (both timestamps equal, so
both bins are 0 and `b + 1 = 1 < 3`), polarities 1 and 0. -/
theorem C2_grid_mass_equals_polarity_sum_witness :
    ∃ g evs',
      events_to_voxel_grid [⟨5, 0, 0, 1⟩, ⟨5, 0, 0, 0⟩] 3 1 1 = .ok (g, evs')
      ∧ (∀ e ∈ ([⟨5, 0, 0, 1⟩, ⟨5, 0, 0, 0⟩] : List Event),
          (leftVoteNp 3 1 1 (npEvent 3 [⟨5, 0, 0, 1⟩, ⟨5, 0, 0, 0⟩] e)).2.2
              + (rightVoteNp 3 1 1 (npEvent 3 [⟨5, 0, 0, 1⟩, ⟨5, 0, 0, 0⟩] e)).2.2
            = normPolarity e.p
          ∧ (normPolarity e.p = 1 ∨ normPolarity e.p = -1))
      ∧ g.sum = (([⟨5, 0, 0, 1⟩, ⟨5, 0, 0, 0⟩] : List Event).map
          fun e => normPolarity e.p).sum :=
  C2_grid_mass_equals_polarity_sum [⟨5, 0, 0, 1⟩, ⟨5, 0, 0, 0⟩] 3 1 1
    (by with_unfolding_all decide) (by decide) (by decide) (by decide)
    (by with_unfolding_all decide) (by with_unfolding_all decide)
    (by with_unfolding_all decide) (by with_unfolding_all decide)

lemma ratTrunc_zero : ratTrunc 0 = 0 := by
  rw [ratTrunc_eq_floor le_rfl]
  exact Int.floor_zero

/-- Claim C3: when all events share one timestamp, the builder does not raise a
division error: `deltaT` falls back to 1, every normalized position becomes 0,
and the returned grid carries all accumulated mass in time bin 0 (flat cells
`[0, height * width)`), every other bin being identically zero. -/
theorem C3_single_timestamp_batch (events : List Event) (num_bins width height : ℕ)
    (hne : events ≠ []) (hnb : 0 < num_bins) (hw : 0 < width) (hh : 0 < height)
    (hx : ∀ e ∈ events, 0 ≤ ratTrunc e.x ∧ ratTrunc e.x < (width : ℤ))
    (hy : ∀ e ∈ events, 0 ≤ ratTrunc e.y ∧ ratTrunc e.y < (height : ℤ))
    (hts : ∀ e ∈ events, e.t = first_stamp events) :
    ∃ g evs', events_to_voxel_grid events num_bins width height = .ok (g, evs')
      ∧ deltaT events = 1
      ∧ (∀ e' ∈ evs', e'.t = 0)
      ∧ g.length = num_bins * height * width
      ∧ (∀ i : ℕ, height * width ≤ i → g.getD i 0 = 0)
      ∧ g.sum = (events.map fun e => normPolarity e.p).sum := by
  have hlastf : last_stamp events = first_stamp events := by
    match events, hne with
    | a :: tl, _ =>
      have hmem : (a :: tl).getLast (by simp) ∈ a :: tl := List.getLast_mem _
      have h1 := hts _ hmem
      unfold last_stamp
      rw [List.getLast?_eq_getLast _ (by simp)]
      exact h1
  have hdT : deltaT events = 1 := by
    unfold deltaT
    rw [if_pos (by rw [hlastf, sub_self])]
  have hpos0 : ∀ e ∈ events, binPos num_bins events e.t = 0 := by
    intro e he
    rw [hts e he, binPos_self_first]
  have htr0 : ∀ e ∈ events, ratTrunc (npEvent num_bins events e).t = 0 := by
    intro e he
    show ratTrunc (binPos num_bins events e.t) = 0
    rw [hpos0 e he, ratTrunc_zero]
  obtain ⟨g, hrun, hlen, hpt, hsum⟩ :=
    events_to_voxel_grid_char events num_bins width height hne hnb.ne' hw.ne' hh.ne'
      (by
        rw [npNormalize_eq]
        intro e' he'
        obtain ⟨e, he, rfl⟩ := List.mem_map.mp he'
        have hxx := hx e he
        have hyy := hy e he
        constructor
        · intro _
          simp only [leftVoteNp]
          rw [htr0 e he]
          exact flatIndex_range hxx.1 hxx.2 hyy.1 hyy.2 le_rfl (by omega)
        · intro hguard
          simp only [rightVoteNp, decide_eq_true_eq] at hguard ⊢
          rw [htr0 e he] at hguard ⊢
          exact flatIndex_range hxx.1 hxx.2 hyy.1 hyy.2 (by omega) (by omega))
  refine ⟨g, npNormalize num_bins events, hrun, hdT, ?_, hlen, ?_, ?_⟩
  · rw [npNormalize_eq]
    intro e' he'
    obtain ⟨e, he, rfl⟩ := List.mem_map.mp he'
    show binPos num_bins events e.t = 0
    exact hpos0 e he
  · intro i hi
    by_cases hilt : i < num_bins * height * width
    · rw [hpt i hilt, npNormalize_eq, List.map_map]
      refine List.sum_eq_zero ?_
      intro q hq
      obtain ⟨e, he, rfl⟩ := List.mem_map.mp hq
      show contribAt _ _ _ = 0
      unfold contribAt
      have hxx := hx e he
      have hyy := hy e he
      have hL : ¬((leftVoteNp num_bins width height (npEvent num_bins events e)).1 = true
          ∧ (leftVoteNp num_bins width height (npEvent num_bins events e)).2.1 = (i : ℤ)) := by
        rintro ⟨-, hidx⟩
        simp only [leftVoteNp] at hidx
        have hxe : ratTrunc (npEvent num_bins events e).x = ratTrunc e.x := rfl
        have hye : ratTrunc (npEvent num_bins events e).y = ratTrunc e.y := rfl
        rw [htr0 e he, hxe, hye] at hidx
        have hlt : ratTrunc e.x + ratTrunc e.y * (width : ℤ) + 0 * ((width : ℤ) * (height : ℤ))
            < ((height : ℤ) * (width : ℤ)) := by nlinarith [hxx.1, hxx.2, hyy.1, hyy.2]
        omega
      rw [if_neg hL]
      have hval : (rightVoteNp num_bins width height (npEvent num_bins events e)).2.2 = 0 := by
        simp only [rightVoteNp]
        have ht' : (npEvent num_bins events e).t = 0 := hpos0 e he
        rw [ht']
        rw [show ratTrunc (0 : ℚ) = 0 from ratTrunc_zero]
        norm_num
      split
      · rw [hval, add_zero]
      · rw [add_zero]
    · rw [List.getD_eq_default _ _ (by omega)]
  · rw [hsum, npNormalize_eq, List.map_map]
    refine congrArg List.sum (List.map_congr_left ?_)
    intro e he
    show contribTotal _ _ = normPolarity e.p
    unfold contribTotal
    have hguardL : (leftVoteNp num_bins width height (npEvent num_bins events e)).1 = true := by
      simp only [leftVoteNp, decide_eq_true_eq]
      rw [htr0 e he]
      omega
    rw [if_pos hguardL]
    have hvalL : (leftVoteNp num_bins width height (npEvent num_bins events e)).2.2
        = normPolarity e.p := by
      simp only [leftVoteNp]
      have ht' : (npEvent num_bins events e).t = 0 := hpos0 e he
      have hpe : (npEvent num_bins events e).p = normPolarity e.p := rfl
      rw [ht', hpe, show ratTrunc (0 : ℚ) = 0 from ratTrunc_zero]
      norm_num
    have hvalR : (rightVoteNp num_bins width height (npEvent num_bins events e)).2.2 = 0 := by
      simp only [rightVoteNp]
      have ht' : (npEvent num_bins events e).t = 0 := hpos0 e he
      rw [ht', show ratTrunc (0 : ℚ) = 0 from ratTrunc_zero]
      norm_num
    rw [hvalL, hvalR]
    split
    · rw [add_zero]
    · rw [add_zero]

/-- Witness for C3: three events at timestamp 7 with polarities 1, 1, 0 in a
`(2, 1, 1)` grid. -/
theorem C3_single_timestamp_batch_witness :
    ∃ g evs',
      events_to_voxel_grid [⟨7, 0, 0, 1⟩, ⟨7, 0, 0, 1⟩, ⟨7, 0, 0, 0⟩] 2 1 1 = .ok (g, evs')
      ∧ deltaT [⟨7, 0, 0, 1⟩, ⟨7, 0, 0, 1⟩, ⟨7, 0, 0, 0⟩] = 1
      ∧ (∀ e' ∈ evs', e'.t = 0)
      ∧ g.length = 2 * 1 * 1
      ∧ (∀ i : ℕ, 1 * 1 ≤ i → g.getD i 0 = 0)
      ∧ g.sum = (([⟨7, 0, 0, 1⟩, ⟨7, 0, 0, 1⟩, ⟨7, 0, 0, 0⟩] : List Event).map
          fun e => normPolarity e.p).sum :=
  C3_single_timestamp_batch [⟨7, 0, 0, 1⟩, ⟨7, 0, 0, 1⟩, ⟨7, 0, 0, 0⟩] 2 1 1
    (by with_unfolding_all decide) (by decide) (by decide) (by decide)
    (by with_unfolding_all decide) (by with_unfolding_all decide)
    (by with_unfolding_all decide)

/-- On a nonnegative normalized position the two builders compute identical
votes: truncation agrees with floor and the extra `tis >= 0` guard of the
PyTorch version is vacuous. -/
lemma votes_agree (num_bins width height : ℕ) (events : List Event) (e : Event)
    (hpos : 0 ≤ binPos num_bins events e.t) :
    leftVotePt num_bins width height (ptEvent num_bins events e)
        = leftVoteNp num_bins width height (npEvent num_bins events e)
      ∧ rightVotePt num_bins width height (ptEvent num_bins events e)
        = rightVoteNp num_bins width height (npEvent num_bins events e) := by
  have ht : (ptEvent num_bins events e).t = binPos num_bins events e.t := rfl
  have ht' : (npEvent num_bins events e).t = binPos num_bins events e.t := rfl
  have htr : ratTrunc (binPos num_bins events e.t) = ⌊binPos num_bins events e.t⌋ :=
    ratTrunc_eq_floor hpos
  have hfl : (0 ≤ ⌊binPos num_bins events e.t⌋) := Int.floor_nonneg.mpr hpos
  have hdec : decide (0 ≤ ⌊binPos num_bins events e.t⌋) = true := decide_eq_true hfl
  constructor
  · unfold leftVotePt leftVoteNp
    rw [ht, ht', htr, hdec, Bool.and_true]
    rfl
  · unfold rightVotePt rightVoteNp
    rw [ht, ht', htr, hdec, Bool.and_true]
    rfl

/-- Claim C10: on a non-empty, spatially valid batch sorted by ascending
timestamp, the NumPy builder and the PyTorch builder succeed and return
element-for-element equal flat voxel grids of size
`num_bins * height * width` (the flattening of shape
`(num_bins, height, width)`), despite the former truncating bin positions
toward zero without a `b >= 0` guard and the latter flooring with one. -/
theorem C10_builders_agree_on_sorted_batches (events : List Event)
    (num_bins width height : ℕ)
    (hne : events ≠ []) (hnb : 0 < num_bins) (hw : 0 < width) (hh : 0 < height)
    (hx : ∀ e ∈ events, 0 ≤ ratTrunc e.x ∧ ratTrunc e.x < (width : ℤ))
    (hy : ∀ e ∈ events, 0 ≤ ratTrunc e.y ∧ ratTrunc e.y < (height : ℤ))
    (hsort : events.Pairwise fun a b => a.t ≤ b.t) :
    ∃ gN evsN gP evsP,
      events_to_voxel_grid events num_bins width height = .ok (gN, evsN)
      ∧ events_to_voxel_grid_pytorch events num_bins width height = .ok (gP, evsP)
      ∧ gN.length = num_bins * height * width
      ∧ gP = gN := by
  have hbounds := binPos_bounds hne hnb.ne' hsort
  have hfloor : ∀ e ∈ events, 0 ≤ ⌊binPos num_bins events e.t⌋
      ∧ ⌊binPos num_bins events e.t⌋ < (num_bins : ℤ) := by
    intro e he
    obtain ⟨h0, h1⟩ := hbounds e he
    refine ⟨Int.floor_nonneg.mpr h0, ?_⟩
    have h2 : ⌊binPos num_bins events e.t⌋ ≤ ⌊(num_bins : ℚ) - 1⌋ := Int.floor_le_floor h1
    have h3 : ((num_bins : ℚ) - 1) = ((num_bins - 1 : ℤ) : ℚ) := by push_cast; ring
    rw [h3, Int.floor_intCast] at h2
    omega
  have htr : ∀ e ∈ events,
      ratTrunc (binPos num_bins events e.t) = ⌊binPos num_bins events e.t⌋ := by
    intro e he
    exact ratTrunc_eq_floor (hbounds e he).1
  obtain ⟨gN, hrunN, hlenN, hptN, -⟩ :=
    events_to_voxel_grid_char events num_bins width height hne hnb.ne' hw.ne' hh.ne'
      (by
        rw [npNormalize_eq]
        intro e' he'
        obtain ⟨e, he, rfl⟩ := List.mem_map.mp he'
        obtain ⟨hf0, hf1⟩ := hfloor e he
        have hxx := hx e he
        have hyy := hy e he
        constructor
        · intro _
          simp only [leftVoteNp]
          rw [show ratTrunc (npEvent num_bins events e).t
              = ⌊binPos num_bins events e.t⌋ from htr e he]
          exact flatIndex_range hxx.1 hxx.2 hyy.1 hyy.2 hf0 hf1
        · intro hguard
          simp only [rightVoteNp, decide_eq_true_eq] at hguard ⊢
          rw [show ratTrunc (npEvent num_bins events e).t
              = ⌊binPos num_bins events e.t⌋ from htr e he] at hguard ⊢
          exact flatIndex_range hxx.1 hxx.2 hyy.1 hyy.2 (by omega) (by omega))
  obtain ⟨gP, hrunP, hlenP, hptP, -⟩ :=
    events_to_voxel_grid_pytorch_char events num_bins width height hne hnb.ne' hw.ne' hh.ne'
      (by
        rw [ptNormalize_eq]
        intro e' he'
        obtain ⟨e, he, rfl⟩ := List.mem_map.mp he'
        obtain ⟨hf0, hf1⟩ := hfloor e he
        have hxx := hx e he
        have hyy := hy e he
        have hte : ⌊(ptEvent num_bins events e).t⌋ = ⌊binPos num_bins events e.t⌋ := rfl
        constructor
        · intro _
          simp only [leftVotePt]
          rw [hte]
          exact flatIndex_range hxx.1 hxx.2 hyy.1 hyy.2 hf0 hf1
        · intro hguard
          simp only [rightVotePt, Bool.and_eq_true, decide_eq_true_eq] at hguard ⊢
          rw [hte] at hguard ⊢
          exact flatIndex_range hxx.1 hxx.2 hyy.1 hyy.2 (by omega) (by omega))
  refine ⟨gN, npNormalize num_bins events, gP, ptNormalize num_bins events,
    hrunN, hrunP, hlenN, ?_⟩
  have hcell : ∀ i : ℕ, i < num_bins * height * width → gP.getD i 0 = gN.getD i 0 := by
    intro i hi
    rw [hptP i hi, hptN i hi, ptNormalize_eq, npNormalize_eq, List.map_map, List.map_map]
    refine congrArg List.sum (List.map_congr_left ?_)
    intro e he
    obtain ⟨hvL, hvR⟩ := votes_agree num_bins width height events e (hbounds e he).1
    show contribAt (leftVotePt num_bins width height (ptEvent num_bins events e))
        (rightVotePt num_bins width height (ptEvent num_bins events e)) i
      = contribAt (leftVoteNp num_bins width height (npEvent num_bins events e))
        (rightVoteNp num_bins width height (npEvent num_bins events e)) i
    rw [hvL, hvR]
  refine List.ext_getElem (by rw [hlenP, hlenN]) ?_
  intro i h1 h2
  have h3 := hcell i (by omega)
  rwa [List.getD_eq_getElem _ _ h1, List.getD_eq_getElem _ _ h2] at h3

/-- Witness for C10: a sorted two-event batch on a `(2, 1, 1)` grid. -/
theorem C10_builders_agree_on_sorted_batches_witness :
    ∃ gN evsN gP evsP,
      events_to_voxel_grid [⟨0, 0, 0, 1⟩, ⟨1, 0, 0, 1⟩] 2 1 1 = .ok (gN, evsN)
      ∧ events_to_voxel_grid_pytorch [⟨0, 0, 0, 1⟩, ⟨1, 0, 0, 1⟩] 2 1 1 = .ok (gP, evsP)
      ∧ gN.length = 2 * 1 * 1
      ∧ gP = gN :=
  C10_builders_agree_on_sorted_batches [⟨0, 0, 0, 1⟩, ⟨1, 0, 0, 1⟩] 2 1 1
    (by with_unfolding_all decide) (by decide) (by decide) (by decide)
    (by with_unfolding_all decide) (by with_unfolding_all decide)
    (by
      refine List.pairwise_cons.mpr ⟨?_, ?_⟩
      · intro e he
        rw [List.mem_singleton.mp he]
        with_unfolding_all decide
      · exact List.pairwise_singleton _ _)

/-- Counterexample to C1 as stated: in the NumPy builder, the middle event of
the batch `[(t=0), (t=-3/2), (t=1)]` (with `num_bins = 2`, `deltaT = 1`) has
normalized position `-3/2`, floor bin `b = -2` with `b + 1 = -1`, both outside
`[0, num_bins)`, so C1 says it contributes nothing.  The call does not error,
but the grid is `[1/2, 5/2]` instead of the `[1, 1]` produced by the same batch
without that event: the truncated bin `-1` passes the `tis < num_bins` check
and wraps around to the last cell, adding `3/2` to bin 1 and `-1/2` to bin 0. -/
theorem C1_negative_bin_pollution_counterexample :
    (events_to_voxel_grid
        [⟨0, 0, 0, 1⟩, ⟨-(3 : ℚ)/2, 0, 0, 1⟩, ⟨1, 0, 0, 1⟩] 2 1 1).toOption.map Prod.fst
      = some [1/2, 5/2]
    ∧ (events_to_voxel_grid [⟨0, 0, 0, 1⟩, ⟨1, 0, 0, 1⟩] 2 1 1).toOption.map Prod.fst
      = some [1, 1]
    ∧ ⌊binPos 2 [⟨0, 0, 0, 1⟩, ⟨-(3 : ℚ)/2, 0, 0, 1⟩, ⟨1, 0, 0, 1⟩] (-(3 : ℚ)/2)⌋ = -2
    ∧ first_stamp [⟨0, 0, 0, 1⟩, ⟨-(3 : ℚ)/2, 0, 0, 1⟩, ⟨1, 0, 0, 1⟩]
        = first_stamp [⟨0, 0, 0, 1⟩, ⟨1, 0, 0, 1⟩]
    ∧ last_stamp [⟨0, 0, 0, 1⟩, ⟨-(3 : ℚ)/2, 0, 0, 1⟩, ⟨1, 0, 0, 1⟩]
        = last_stamp [⟨0, 0, 0, 1⟩, ⟨1, 0, 0, 1⟩]
    ∧ ([1/2, 5/2] : List ℚ) ≠ [1, 1] := by
  refine ⟨?_, ?_, ?_, ?_, ?_, ?_⟩ <;> with_unfolding_all decide

/-- Claim C1 (amended): for spatially valid batches the PyTorch builder behaves
exactly as C1 states: it never errors, each cell is the sum of the guarded
per-event contributions, and the guards drop both sides when the floor bin is
negative or `≥ num_bins` and only the right side when `b + 1 = num_bins`.  The
NumPy builder drops the high side the same way (`tis ≥ num_bins` drops both
sides, `tis + 1 = num_bins` drops the right side) and, when every truncated
bin is nonnegative, also runs without error with the same cellwise
characterization; but it does not drop events with negative bins: its left
guard `tis < num_bins` is true for every `tis < num_bins` including negative
ones. -/
theorem C1_out_of_range_clipping (events : List Event) (num_bins width height : ℕ)
    (hne : events ≠ []) (hnb : 0 < num_bins) (hw : 0 < width) (hh : 0 < height)
    (hx : ∀ e ∈ events, 0 ≤ ratTrunc e.x ∧ ratTrunc e.x < (width : ℤ))
    (hy : ∀ e ∈ events, 0 ≤ ratTrunc e.y ∧ ratTrunc e.y < (height : ℤ)) :
    (∃ g evs', events_to_voxel_grid_pytorch events num_bins width height = .ok (g, evs')
      ∧ ∀ i : ℕ, i < num_bins * height * width →
          g.getD i 0 = ((ptNormalize num_bins events).map fun e =>
            contribAt (leftVotePt num_bins width height e)
              (rightVotePt num_bins width height e) i).sum)
    ∧ (∀ e : Event, ⌊e.t⌋ < 0 →
        (leftVotePt num_bins width height e).1 = false
        ∧ (rightVotePt num_bins width height e).1 = false)
    ∧ (∀ e : Event, (num_bins : ℤ) ≤ ⌊e.t⌋ →
        (leftVotePt num_bins width height e).1 = false
        ∧ (rightVotePt num_bins width height e).1 = false)
    ∧ (∀ e : Event, 0 ≤ ⌊e.t⌋ → ⌊e.t⌋ + 1 = (num_bins : ℤ) →
        (leftVotePt num_bins width height e).1 = true
        ∧ (rightVotePt num_bins width height e).1 = false)
    ∧ ((∀ e ∈ events, 0 ≤ ratTrunc (binPos num_bins events e.t)) →
      ∃ g evs', events_to_voxel_grid events num_bins width height = .ok (g, evs')
        ∧ ∀ i : ℕ, i < num_bins * height * width →
            g.getD i 0 = ((npNormalize num_bins events).map fun e =>
              contribAt (leftVoteNp num_bins width height e)
                (rightVoteNp num_bins width height e) i).sum)
    ∧ (∀ e : Event, (num_bins : ℤ) ≤ ratTrunc e.t →
        (leftVoteNp num_bins width height e).1 = false
        ∧ (rightVoteNp num_bins width height e).1 = false)
    ∧ (∀ e : Event, ratTrunc e.t + 1 = (num_bins : ℤ) →
        (rightVoteNp num_bins width height e).1 = false)
    ∧ (∀ e : Event, ratTrunc e.t < (num_bins : ℤ) →
        (leftVoteNp num_bins width height e).1 = true) := by
  refine ⟨?_, ?_, ?_, ?_, ?_, ?_, ?_, ?_⟩
  · obtain ⟨g, hrun, hlen, hpt, -⟩ :=
      events_to_voxel_grid_pytorch_char events num_bins width height hne hnb.ne' hw.ne' hh.ne'
        (by
          rw [ptNormalize_eq]
          intro e' he'
          obtain ⟨e, he, rfl⟩ := List.mem_map.mp he'
          have hxx := hx e he
          have hyy := hy e he
          constructor
          · intro hguard
            simp only [leftVotePt, Bool.and_eq_true, decide_eq_true_eq] at hguard
            simp only [leftVotePt]
            exact flatIndex_range hxx.1 hxx.2 hyy.1 hyy.2 hguard.2 hguard.1
          · intro hguard
            simp only [rightVotePt, Bool.and_eq_true, decide_eq_true_eq] at hguard
            simp only [rightVotePt]
            exact flatIndex_range hxx.1 hxx.2 hyy.1 hyy.2 (by omega) (by omega))
    exact ⟨g, ptNormalize num_bins events, hrun, hpt⟩
  · intro e hneg
    have h1 : decide (0 ≤ ⌊e.t⌋) = false := decide_eq_false (by omega)
    constructor
    · show (decide (⌊e.t⌋ < (num_bins : ℤ)) && decide (0 ≤ ⌊e.t⌋)) = false
      rw [h1, Bool.and_false]
    · show (decide (⌊e.t⌋ + 1 < (num_bins : ℤ)) && decide (0 ≤ ⌊e.t⌋)) = false
      rw [h1, Bool.and_false]
  · intro e hhigh
    constructor
    · show (decide (⌊e.t⌋ < (num_bins : ℤ)) && decide (0 ≤ ⌊e.t⌋)) = false
      rw [decide_eq_false (by omega : ¬(⌊e.t⌋ < (num_bins : ℤ))), Bool.false_and]
    · show (decide (⌊e.t⌋ + 1 < (num_bins : ℤ)) && decide (0 ≤ ⌊e.t⌋)) = false
      rw [decide_eq_false (by omega : ¬(⌊e.t⌋ + 1 < (num_bins : ℤ))), Bool.false_and]
  · intro e h0 hedge
    constructor
    · show (decide (⌊e.t⌋ < (num_bins : ℤ)) && decide (0 ≤ ⌊e.t⌋)) = true
      rw [decide_eq_true (by omega : ⌊e.t⌋ < (num_bins : ℤ)), decide_eq_true h0]
      rfl
    · show (decide (⌊e.t⌋ + 1 < (num_bins : ℤ)) && decide (0 ≤ ⌊e.t⌋)) = false
      rw [decide_eq_false (by omega : ¬(⌊e.t⌋ + 1 < (num_bins : ℤ))), Bool.false_and]
  · intro hpos
    obtain ⟨g, hrun, hlen, hpt, -⟩ :=
      events_to_voxel_grid_char events num_bins width height hne hnb.ne' hw.ne' hh.ne'
        (by
          rw [npNormalize_eq]
          intro e' he'
          obtain ⟨e, he, rfl⟩ := List.mem_map.mp he'
          have hxx := hx e he
          have hyy := hy e he
          have hp0 : 0 ≤ ratTrunc (npEvent num_bins events e).t := hpos e he
          constructor
          · intro hguard
            simp only [leftVoteNp, decide_eq_true_eq] at hguard
            simp only [leftVoteNp]
            exact flatIndex_range hxx.1 hxx.2 hyy.1 hyy.2 hp0 hguard
          · intro hguard
            simp only [rightVoteNp, decide_eq_true_eq] at hguard
            simp only [rightVoteNp]
            exact flatIndex_range hxx.1 hxx.2 hyy.1 hyy.2 (by omega) (by omega))
    exact ⟨g, npNormalize num_bins events, hrun, hpt⟩
  · intro e hhigh
    constructor
    · show decide (ratTrunc e.t < (num_bins : ℤ)) = false
      exact decide_eq_false (by omega)
    · show decide (ratTrunc e.t + 1 < (num_bins : ℤ)) = false
      exact decide_eq_false (by omega)
  · intro e hedge
    show decide (ratTrunc e.t + 1 < (num_bins : ℤ)) = false
    exact decide_eq_false (by omega)
  · intro e hlow
    show decide (ratTrunc e.t < (num_bins : ℤ)) = true
    exact decide_eq_true hlow

/-- Witness for C1 (amended): the PyTorch builder on a concrete valid batch. -/
theorem C1_out_of_range_clipping_witness :
    ∃ g evs', events_to_voxel_grid_pytorch [⟨0, 0, 0, 1⟩, ⟨1, 0, 0, 1⟩] 2 1 1 = .ok (g, evs')
      ∧ ∀ i : ℕ, i < 2 * 1 * 1 →
          g.getD i 0 = ((ptNormalize 2 [⟨0, 0, 0, 1⟩, ⟨1, 0, 0, 1⟩]).map fun e =>
            contribAt (leftVotePt 2 1 1 e) (rightVotePt 2 1 1 e) i).sum :=
  (C1_out_of_range_clipping [⟨0, 0, 0, 1⟩, ⟨1, 0, 0, 1⟩] 2 1 1
    (by with_unfolding_all decide) (by decide) (by decide) (by decide)
    (by with_unfolding_all decide) (by with_unfolding_all decide)).1
